import Mathlib

/-!
Shallow embedding of the masterblog data store (`src/app.py`).

The program keeps a list of blog posts (Python dicts with keys `id`,
`author`, `title`, `content`, `likes`) in an in-process cache, loads it
from a JSON file (`load_data`), writes it back after every mutation
(`save_data`), and exposes Flask handlers `add`, `delete`, `like`,
`update` that mutate the cached list in place.

Two tiers are modelled:
* a typed tier (`Post`, lists of posts) for the well-formed records the
  app itself creates — used by the CRUD claims;
* a raw tier (`RawPost`, JSON objects as ordered key/value lists) for the
  file format and for records that may lack fields.
-/

namespace Masterblog

/-- JSON scalar values appearing in post records (integers and strings
are the only value shapes the app ever stores in a post field). -/
inductive JVal where
  | num (n : Int)
  | str (s : String)
deriving DecidableEq

/-- A raw post record: a JSON object, i.e. a Python dict, as an ordered
association list of field names to values. -/
abbrev RawPost := List (String × JVal)

/-- Field key `id`. -/
def kId : String := "id"

/-- Field key `author`. -/
def kAuthor : String := "author"

/-- Field key `title`. -/
def kTitle : String := "title"

/-- Field key `content`. -/
def kContent : String := "content"

/-- Field key `likes`. -/
def kLikes : String := "likes"

/-- A well-formed post, the shape constructed by the `add` handler
(`src/app.py` lines 163-169); field order matches the dict literal. -/
structure Post where
  id : Int
  author : String
  title : String
  content : String
  likes : Int
deriving DecidableEq

/-- Serialization of one post to a JSON object, in the key order of the
dict literal in `add`; this is what `json.dump` writes for one record. -/
def dumpPost (p : Post) : RawPost :=
  [(kId, JVal.num p.id), (kAuthor, JVal.str p.author), (kTitle, JVal.str p.title),
   (kContent, JVal.str p.content), (kLikes, JVal.num p.likes)]

/-- Reading one raw record back as a typed post: look up the five fields
with their expected shapes (the shape every record written by the app has). -/
def rawToPost (r : RawPost) : Option Post :=
  match r.lookup kId, r.lookup kAuthor, r.lookup kTitle, r.lookup kContent, r.lookup kLikes with
  | some (JVal.num i), some (JVal.str a), some (JVal.str t), some (JVal.str c), some (JVal.num l) =>
      some { id := i, author := a, title := t, content := c, likes := l }
  | _, _, _, _, _ => none

/-- Reading a whole raw collection back as typed posts (in order). -/
def decodeData : List RawPost → Option (List Post)
  | [] => some []
  | r :: rest =>
    match rawToPost r, decodeData rest with
    | some p, some ps => some (p :: ps)
    | _, _ => none

/-- Abstract state of the backing JSON file, one constructor per branch
of `load_data`'s `try`/`except` (`src/app.py` lines 17-29): the file may
be absent (`FileNotFoundError`), empty or textually unparseable (both
raise `json.JSONDecodeError`), unreadable for any other reason (the
generic `except`), or hold a parsed JSON array of records. -/
inductive FileState where
  | missing
  | emptyFile
  | unparseable
  | ioError
  | ok (records : List RawPost)
deriving DecidableEq

/-- `load_data` (`src/app.py` lines 9-29): returns the parsed records,
and collapses every failure branch to the empty list; it catches every
exception, so it is a total function returning no error. -/
def load_data : FileState → List RawPost
  | FileState.missing => []
  | FileState.emptyFile => []
  | FileState.unparseable => []
  | FileState.ioError => []
  | FileState.ok records => records

/-- `save_data` (`src/app.py` lines 45-60): on success the file is
overwritten with the serialization of `data`; on failure the exception
is caught and only logged, the previous file state is kept, and no error
reaches the caller (the return type has no error component). `saveOk`
abstracts whether the write raised. -/
def save_data (saveOk : Bool) (data : List Post) (disk : FileState) : FileState :=
  if saveOk then FileState.ok (data.map dumpPost) else disk

/-- `max([post['id'] for post in data], default=0)` (`src/app.py` line
157): the maximum of a list of integers, `0` only when the list is empty. -/
def maxDefault : List Int → Int
  | [] => 0
  | x :: xs => xs.foldl max x

/-- The data mutation of the `add` handler (`src/app.py` lines 156-170):
build the new post with `id = highest_id + 1` and `likes = 0` and append
it at the end. -/
def addData (author title content : String) (data : List Post) : List Post :=
  data ++ [{ id := maxDefault (data.map Post.id) + 1, author := author,
             title := title, content := content, likes := 0 }]

/-- Python `list.remove(x)`: drop the first element equal to `x` (every
call site in `delete` passes an element of the list, so the
raise-on-absent branch of `list.remove` is unreachable and the absent
case is modelled as the identity). -/
def removeFirst (x : Post) : List Post → List Post
  | [] => []
  | y :: ys => if y = x then ys else y :: removeFirst x ys

/-- The loop of the `delete` handler (`src/app.py` lines 86-88):
`for post in data: if post['id'] == post_id: data.remove(post)`.
CPython's list iterator keeps a position `i` into the (mutating) list,
stops as soon as `i` reaches the current length, and `remove` deletes
the first element equal to `post`; removing therefore shifts the rest
left while `i` still advances, so the element after a removed one is
skipped. -/
def deleteLoop (pid : Int) (data : List Post) (i : Nat) : List Post :=
  if h : i < data.length then
    let post := data.get ⟨i, h⟩
    if post.id = pid then
      deleteLoop pid (removeFirst post data) (i + 1)
    else
      deleteLoop pid data (i + 1)
  else data
termination_by data.length - i
decreasing_by
  · have hle : ∀ (x : Post) (l : List Post), (removeFirst x l).length ≤ l.length := by
      intro x l
      induction l with
      | nil => exact Nat.le_refl _
      | cons y ys ih =>
        by_cases hyx : y = x
        · rw [removeFirst, if_pos hyx]
          exact Nat.le_succ _
        · rw [removeFirst, if_neg hyx, List.length_cons, List.length_cons]
          exact Nat.succ_le_succ ih
    have := hle (data.get ⟨i, h⟩) data
    omega
  · omega

/-- The data mutation of the `like` handler (`src/app.py` lines 105-107):
every matching post gets `likes` incremented by one, all other posts and
fields are untouched. -/
def likeData (pid : Int) (data : List Post) : List Post :=
  data.map fun post => if post.id = pid then { post with likes := post.likes + 1 } else post

/-- The find loop of the `update` handler (`src/app.py` lines 129-131):
`updated_post` is overwritten on every match, so it ends up referring to
the last matching element; this returns that element's index. -/
def lastMatchIdx (pid : Int) : List Post → Option Nat
  | [] => none
  | post :: rest =>
    match lastMatchIdx pid rest with
    | some j => some (j + 1)
    | none => if post.id = pid then some 0 else none

/-- The `update` handler's data effect (`src/app.py` lines 127-139):
find the last matching post; if none, return the not-found signal with
the data untouched and no save (`Bool` component `false`); otherwise
overwrite that post's `author` and `content` in place, save, and return
the updated post. -/
def updateData (pid : Int) (author content : String) (data : List Post) :
    Option Post × List Post × Bool :=
  match lastMatchIdx pid data with
  | none => (none, data, false)
  | some i =>
    match data[i]? with
    | none => (none, data, false)
    | some post =>
      let post' := { post with author := author, content := content }
      (some post', data.set i post', true)

/-- HTTP-level outcome of a handler, as far as the store contract is
concerned: a redirect to the index (success) or a 404 ("Post not
found"). Save failures never appear here: there is no error constructor
for them, matching the source where `save_data` swallows exceptions. -/
inductive Resp where
  | redirect
  | notFound
deriving DecidableEq

/-- Process state: the cached in-memory collection (`get_data._cache`)
and the backing file. -/
structure Sys where
  cache : List Post
  disk : FileState
deriving DecidableEq

/-- The `add` handler on a POST request (`src/app.py` lines 144-172). -/
def add (author title content : String) (saveOk : Bool) (s : Sys) : Sys × Resp :=
  let data := addData author title content s.cache
  ({ cache := data, disk := save_data saveOk data s.disk }, Resp.redirect)

/-- The `delete` handler (`src/app.py` lines 74-90). -/
def delete (pid : Int) (saveOk : Bool) (s : Sys) : Sys × Resp :=
  let data := deleteLoop pid s.cache 0
  ({ cache := data, disk := save_data saveOk data s.disk }, Resp.redirect)

/-- The `like` handler (`src/app.py` lines 93-109). -/
def like (pid : Int) (saveOk : Bool) (s : Sys) : Sys × Resp :=
  let data := likeData pid s.cache
  ({ cache := data, disk := save_data saveOk data s.disk }, Resp.redirect)

/-- The `update` handler on a POST request (`src/app.py` lines 112-141):
the not-found branch returns 404 before any mutation or save. -/
def update (pid : Int) (author content : String) (saveOk : Bool) (s : Sys) : Sys × Resp :=
  match updateData pid author content s.cache with
  | (none, _, _) => (s, Resp.notFound)
  | (some _, data, _) => ({ cache := data, disk := save_data saveOk data s.disk }, Resp.redirect)

/-- Python dict assignment `d[k] = v`: replace the value of the first
(only) occurrence of key `k`, keeping its position; append when absent. -/
def setField (k : String) (v : JVal) : RawPost → RawPost
  | [] => [(k, v)]
  | (k', v') :: rest => if k' = k then (k, v) :: rest else (k', v') :: setField k v rest

/-- One iteration of the `like` loop body on a raw record
(`src/app.py` lines 106-107): `post['id']` raises `KeyError` when the
field is absent (`none` result); on a match, `post['likes'] += 1` raises
`KeyError` when `likes` is absent and `TypeError` when it is not a
number, and otherwise increments it. -/
def likeRawPost (pid : Int) (post : RawPost) : Option RawPost :=
  match post.lookup kId with
  | none => none
  | some v =>
    if v = JVal.num pid then
      match post.lookup kLikes with
      | some (JVal.num n) => some (setField kLikes (JVal.num (n + 1)) post)
      | _ => none
    else some post

/-- The `like` loop over raw records; `none` models an exception
escaping the loop (and the handler) instead of a silent no-op. -/
def likeRaw (pid : Int) : List RawPost → Option (List RawPost)
  | [] => some []
  | post :: rest =>
    match likeRawPost pid post with
    | none => none
    | some p =>
      match likeRaw pid rest with
      | none => none
      | some r => some (p :: r)

/-- Whether a raw record's `likes` field is present and numeric. -/
def isNumLikes (post : RawPost) : Bool :=
  match post.lookup kLikes with
  | some (JVal.num _) => true
  | _ => false

/-- Precondition making the raw `like` loop total: every record has an
`id` field and a present, numeric `likes` field. -/
abbrev likeTotalPre (data : List RawPost) : Prop :=
  ∀ post ∈ data, (post.lookup kId).isSome = true ∧ isNumLikes post = true

/-- The in-place overwrite performed by `update` (`src/app.py` lines
136-137): only the `author` and `content` fields are assigned; `id`,
`title` and `likes` are untouched. -/
def updatedPost (a c : String) (p : Post) : Post :=
  { p with author := a, content := c }

/-- A sequence of create calls (author, title, content) applied from
left to right to a starting collection. -/
def applyCreates : List (String × String × String) → List Post → List Post
  | [], data => data
  | r :: rs, data => applyCreates rs (addData r.1 r.2.1 r.2.2 data)

/-- The integer list `[1, 2, ..., k]`. -/
def idsFromOne (k : Nat) : List Int :=
  (List.range' 1 k).map (fun n : Nat => (n : Int))

/-- Sample post, id 1. -/
def postA : Post :=
  { id := 1, author := "a", title := "t", content := "x", likes := 0 }

/-- Sample post sharing id 1 with `postA` but otherwise different. -/
def postB : Post :=
  { id := 1, author := "b", title := "u", content := "y", likes := 0 }

/-- Sample post, id 2. -/
def postC : Post :=
  { id := 2, author := "c", title := "v", content := "z", likes := 5 }

/-- A collection with two posts that share id 1. -/
def dupData : List Post := [postA, postB]

/-- A collection with distinct ids 1 and 2. -/
def demoData : List Post := [postA, postC]

/-- A raw record with a matching id but no `likes` field. -/
def rawNoLikes : RawPost := [(kId, JVal.num 1)]

/-- A raw record with id 1 and numeric likes 0. -/
def rawGood : RawPost := [(kId, JVal.num 1), (kLikes, JVal.num 0)]

theorem foldl_max_le_acc (xs : List Int) (acc : Int) : acc ≤ xs.foldl max acc := by
  induction xs generalizing acc with
  | nil => exact le_refl _
  | cons x xs ih => exact le_trans (le_max_left acc x) (ih (max acc x))

theorem foldl_max_le_mem (xs : List Int) :
    ∀ (acc x : Int), x ∈ xs → x ≤ xs.foldl max acc := by
  induction xs with
  | nil =>
    intro acc x hx
    cases hx
  | cons y ys ih =>
    intro acc x hx
    rcases List.mem_cons.mp hx with h | h
    · subst h
      exact le_trans (le_max_right acc x) (foldl_max_le_acc ys (max acc x))
    · exact ih (max acc y) x h

theorem foldl_max_mem_or (xs : List Int) :
    ∀ acc : Int, xs.foldl max acc = acc ∨ xs.foldl max acc ∈ xs := by
  induction xs with
  | nil => exact fun acc => Or.inl rfl
  | cons y ys ih =>
    intro acc
    rcases ih (max acc y) with h | h
    · rw [List.foldl_cons, h]
      rcases max_choice acc y with h' | h'
      · exact Or.inl h'
      · rw [h']
        exact Or.inr (List.mem_cons_self y ys)
    · exact Or.inr (List.mem_cons_of_mem y h)

theorem le_maxDefault (l : List Int) (x : Int) (hx : x ∈ l) : x ≤ maxDefault l := by
  cases l with
  | nil => cases hx
  | cons y ys =>
    rcases List.mem_cons.mp hx with h | h
    · subst h
      exact foldl_max_le_acc ys x
    · exact foldl_max_le_mem ys y x h

theorem maxDefault_mem (l : List Int) (hl : l ≠ []) : maxDefault l ∈ l := by
  cases l with
  | nil => exact absurd rfl hl
  | cons y ys =>
    rcases foldl_max_mem_or ys y with h | h
    · rw [maxDefault, h]
      exact List.mem_cons_self y ys
    · exact List.mem_cons_of_mem y h

theorem idsFromOne_concat (k : Nat) :
    idsFromOne (k + 1) = idsFromOne k ++ [(k : Int) + 1] := by
  rw [idsFromOne, idsFromOne, List.range'_concat, List.map_append]
  congr 1
  simp
  omega

theorem mem_idsFromOne {x : Int} {k : Nat} :
    x ∈ idsFromOne k ↔ 1 ≤ x ∧ x ≤ (k : Int) := by
  rw [idsFromOne]
  constructor
  · intro hx
    rcases List.mem_map.mp hx with ⟨n, hn, rfl⟩
    rcases List.mem_range'_1.mp hn with ⟨h1, h2⟩
    constructor
    · omega
    · omega
  · intro ⟨h1, h2⟩
    refine List.mem_map.mpr ⟨x.toNat, List.mem_range'_1.mpr ⟨?_, ?_⟩, ?_⟩
    · omega
    · omega
    · omega

theorem maxDefault_idsFromOne (k : Nat) : maxDefault (idsFromOne k) = k := by
  cases k with
  | zero => rfl
  | succ m =>
    have hmem : ((m : Int) + 1) ∈ idsFromOne (m + 1) := by
      rw [mem_idsFromOne]
      constructor <;> omega
    have hub : ∀ x ∈ idsFromOne (m + 1), x ≤ (m : Int) + 1 := by
      intro x hx
      have := (mem_idsFromOne.mp hx).2
      omega
    have h1 : maxDefault (idsFromOne (m + 1)) ≤ (m : Int) + 1 := by
      apply hub
      apply maxDefault_mem
      intro hnil
      have := hmem
      rw [hnil] at this
      cases this
    have h2 : (m : Int) + 1 ≤ maxDefault (idsFromOne (m + 1)) :=
      le_maxDefault _ _ hmem
    have : maxDefault (idsFromOne (m + 1)) = (m : Int) + 1 := le_antisymm h1 h2
    rw [this]
    push_cast
    ring

theorem addData_ids (a t c : String) (data : List Post) :
    (addData a t c data).map Post.id
      = data.map Post.id ++ [maxDefault (data.map Post.id) + 1] := by
  simp [addData]

theorem applyCreates_ids (reqs : List (String × String × String)) :
    ∀ (data : List Post) (k : Nat), data.map Post.id = idsFromOne k →
      (applyCreates reqs data).map Post.id = idsFromOne (k + reqs.length) := by
  induction reqs with
  | nil =>
    intro data k h
    simpa [applyCreates] using h
  | cons r rs ih =>
    intro data k h
    have hstep : (addData r.1 r.2.1 r.2.2 data).map Post.id = idsFromOne (k + 1) := by
      rw [addData_ids, h, maxDefault_idsFromOne, idsFromOne_concat]
    have hrec := ih (addData r.1 r.2.1 r.2.2 data) (k + 1) hstep
    rw [applyCreates, hrec]
    congr 1
    simp
    omega

theorem list_set_self {α : Type _} :
    ∀ (l : List α) (i : Nat) (h : i < l.length), l.set i l[i] = l := by
  intro l
  induction l with
  | nil =>
    intro i h
    exact absurd h (Nat.not_lt_zero i)
  | cons y ys ih =>
    intro i h
    cases i with
    | zero => rfl
    | succ j =>
      have hj : j < ys.length := by
        simpa using h
      show y :: ys.set j (y :: ys)[j + 1] = y :: ys
      rw [List.getElem_cons_succ, ih j hj]

theorem lastMatchIdx_none_iff (pid : Int) (data : List Post) :
    lastMatchIdx pid data = none ↔ ∀ p ∈ data, p.id ≠ pid := by
  induction data with
  | nil => simp [lastMatchIdx]
  | cons q rest ih =>
    rw [lastMatchIdx]
    cases h : lastMatchIdx pid rest with
    | some j =>
      constructor
      · intro hc
        exact absurd hc (by simp)
      · intro hall
        have hrest : lastMatchIdx pid rest = none :=
          ih.mpr fun p hp => hall p (List.mem_cons_of_mem q hp)
        rw [h] at hrest
        exact absurd hrest (by simp)
    | none =>
      by_cases hq : q.id = pid
      · rw [if_pos hq]
        simp only [reduceCtorEq, false_iff, not_forall]
        exact ⟨q, List.mem_cons_self q rest, not_not.mpr hq⟩
      · rw [if_neg hq]
        constructor
        · intro _ p hp
          rcases List.mem_cons.mp hp with h' | h'
          · rw [h']
            exact hq
          · exact (ih.mp h) p h'
        · intro _
          rfl

/-- Claim C1: `create(author, title, content)` assigns the new post id
`max(ids, default 0) + 1`, constructs the post with `likes = 0` and the
supplied author/title/content, appends it at the end of the collection,
and for every sequence of N create calls starting from the empty
collection the assigned ids are exactly `1..N`, with no gaps or
duplicates. -/
theorem create_assigns_sequential_ids :
    (∀ (data : List Post) (a t c : String),
        addData a t c data
          = data ++ [{ id := maxDefault (data.map Post.id) + 1, author := a,
                       title := t, content := c, likes := 0 }]) ∧
    (∀ reqs : List (String × String × String),
        (applyCreates reqs []).map Post.id
          = (List.range' 1 reqs.length).map (fun n : Nat => (n : Int))) := by
  constructor
  · intro data a t c
    rfl
  · intro reqs
    have h := applyCreates_ids reqs [] 0 (by rfl)
    rw [Nat.zero_add] at h
    rw [h, idsFromOne]

theorem lastMatchIdx_lt (pid : Int) :
    ∀ (data : List Post) (i : Nat), lastMatchIdx pid data = some i → i < data.length := by
  intro data
  induction data with
  | nil =>
    intro i h
    rw [lastMatchIdx] at h
    cases h
  | cons q rest ih =>
    intro i h
    rw [lastMatchIdx] at h
    cases hr : lastMatchIdx pid rest with
    | some j =>
      rw [hr] at h
      have hj := ih j hr
      have : j + 1 = i := by
        simpa using h
      rw [List.length_cons]
      omega
    | none =>
      rw [hr] at h
      by_cases hq : q.id = pid
      · rw [if_pos hq] at h
        have : (0 : Nat) = i := by
          simpa using h
        rw [List.length_cons]
        omega
      · rw [if_neg hq] at h
        cases h

theorem lastMatchIdx_id (pid : Int) :
    ∀ (data : List Post) (i : Nat), lastMatchIdx pid data = some i →
      ∀ h : i < data.length, (data.get ⟨i, h⟩).id = pid := by
  intro data
  induction data with
  | nil =>
    intro i h
    rw [lastMatchIdx] at h
    cases h
  | cons q rest ih =>
    intro i h hlen
    rw [lastMatchIdx] at h
    cases hr : lastMatchIdx pid rest with
    | some j =>
      rw [hr] at h
      have hji : j + 1 = i := by
        simpa using h
      subst hji
      have hj := lastMatchIdx_lt pid rest j hr
      exact ih j hr hj
    | none =>
      rw [hr] at h
      by_cases hq : q.id = pid
      · rw [if_pos hq] at h
        have h0 : (0 : Nat) = i := by
          simpa using h
        subst h0
        exact hq
      · rw [if_neg hq] at h
        cases h

theorem removeFirst_sublist (x : Post) : ∀ l : List Post, (removeFirst x l).Sublist l := by
  intro l
  induction l with
  | nil => exact List.Sublist.refl _
  | cons y ys ih =>
    rw [removeFirst]
    by_cases hyx : y = x
    · rw [if_pos hyx]
      exact List.sublist_cons_self y ys
    · rw [if_neg hyx]
      exact List.Sublist.cons₂ y ih

theorem removeFirst_cons_self (x : Post) (l : List Post) : removeFirst x (x :: l) = l := by
  rw [removeFirst, if_pos rfl]

theorem removeFirst_append_left (x : Post) :
    ∀ (l1 l2 : List Post), x ∉ l1 → removeFirst x (l1 ++ l2) = l1 ++ removeFirst x l2 := by
  intro l1
  induction l1 with
  | nil =>
    intro l2 _
    rfl
  | cons y ys ih =>
    intro l2 hx
    have hyx : y ≠ x := fun hc => hx (hc ▸ List.mem_cons_self y ys)
    rw [List.cons_append, removeFirst, if_neg hyx, ih l2 (fun hc => hx (List.mem_cons_of_mem y hc)),
      List.cons_append]

theorem deleteLoop_eq_stop (pid : Int) (data : List Post) (i : Nat) (h : ¬ i < data.length) :
    deleteLoop pid data i = data := by
  rw [deleteLoop]
  rw [dif_neg h]

theorem deleteLoop_eq_match (pid : Int) (data : List Post) (i : Nat) (h : i < data.length)
    (hm : (data.get ⟨i, h⟩).id = pid) :
    deleteLoop pid data i = deleteLoop pid (removeFirst (data.get ⟨i, h⟩) data) (i + 1) := by
  rw [deleteLoop]
  rw [dif_pos h]
  simp only [hm, if_true]

theorem deleteLoop_eq_nomatch (pid : Int) (data : List Post) (i : Nat) (h : i < data.length)
    (hm : ¬ (data.get ⟨i, h⟩).id = pid) :
    deleteLoop pid data i = deleteLoop pid data (i + 1) := by
  rw [deleteLoop]
  rw [dif_pos h]
  simp only [hm, if_false]

theorem deleteLoop_sublist (pid : Int) :
    ∀ (data : List Post) (i : Nat), (deleteLoop pid data i).Sublist data := by
  intro data i
  induction data, i using deleteLoop.induct pid with
  | case1 data i h post hm ih =>
    rw [deleteLoop_eq_match pid data i h hm]
    exact ih.trans (removeFirst_sublist _ data)
  | case2 data i h post hm ih =>
    rw [deleteLoop_eq_nomatch pid data i h hm]
    exact ih
  | case3 data i h =>
    rw [deleteLoop_eq_stop pid data i h]

theorem likeData_ids (pid : Int) (data : List Post) :
    (likeData pid data).map Post.id = data.map Post.id := by
  rw [likeData, List.map_map]
  apply List.map_congr_left
  intro p _
  by_cases h : p.id = pid
  · simp [h]
  · simp [h]

theorem updateData_eq_none (pid : Int) (a c : String) (data : List Post)
    (h : lastMatchIdx pid data = none) : updateData pid a c data = (none, data, false) := by
  rw [updateData, h]

theorem updateData_eq_some (pid : Int) (a c : String) (data : List Post) (i : Nat)
    (h : lastMatchIdx pid data = some i) (hi : i < data.length) :
    updateData pid a c data
      = (some { data.get ⟨i, hi⟩ with author := a, content := c },
         data.set i { data.get ⟨i, hi⟩ with author := a, content := c }, true) := by
  rw [updateData, h]
  simp [List.getElem?_eq_getElem hi]

theorem updateData_ids (pid : Int) (a c : String) (data : List Post) :
    ((updateData pid a c data).2.1).map Post.id = data.map Post.id := by
  cases hl : lastMatchIdx pid data with
  | none => rw [updateData_eq_none pid a c data hl]
  | some i =>
    have hi := lastMatchIdx_lt pid data i hl
    rw [updateData_eq_some pid a c data i hl hi]
    simp only []
    rw [List.map_set]
    have hlen : i < (data.map Post.id).length := by
      rw [List.length_map]
      exact hi
    have hid : ({ data.get ⟨i, hi⟩ with author := a, content := c } : Post).id
        = (data.map Post.id)[i] := by
      rw [List.getElem_map]
      rfl
    rw [hid, list_set_self _ _ hlen]

theorem nodup_unique_match (data : List Post) (pid : Int)
    (hu : (data.map Post.id).Nodup) (i : Nat) (hi : i < data.length)
    (hpid : (data.get ⟨i, hi⟩).id = pid) :
    ∀ (j : Nat) (hj : j < data.length), j ≠ i → (data.get ⟨j, hj⟩).id ≠ pid := by
  intro j hj hne hc
  have hmi : i < (data.map Post.id).length := by
    rw [List.length_map]
    exact hi
  have hmj : j < (data.map Post.id).length := by
    rw [List.length_map]
    exact hj
  have heq : (data.map Post.id)[j] = (data.map Post.id)[i] := by
    rw [List.getElem_map, List.getElem_map]
    show (data.get ⟨j, hj⟩).id = (data.get ⟨i, hi⟩).id
    rw [hc, hpid]
  exact hne ((List.Nodup.getElem_inj_iff hu).mp heq)

theorem deleteLoop_no_match (pid : Int) :
    ∀ (data : List Post) (i : Nat), (∀ p ∈ data.drop i, p.id ≠ pid) →
      deleteLoop pid data i = data := by
  intro data i
  induction data, i using deleteLoop.induct pid with
  | case1 data i h post hm ih =>
    intro hno
    exfalso
    have hpost : post ∈ data.drop i := by
      rw [List.drop_eq_getElem_cons h]
      exact List.mem_cons_self _ _
    exact hno post hpost hm
  | case2 data i h post hm ih =>
    intro hno
    rw [deleteLoop_eq_nomatch pid data i h hm]
    apply ih
    intro p hp
    apply hno
    rw [List.drop_eq_getElem_cons h]
    exact List.mem_cons_of_mem _ hp
  | case3 data i h =>
    intro _
    rw [deleteLoop_eq_stop pid data i h]

theorem deleteLoop_unique_filter (pid : Int) :
    ∀ (data : List Post) (i : Nat),
      (data.map Post.id).Nodup →
      (∀ p ∈ data.take i, p.id ≠ pid) →
      deleteLoop pid data i
        = data.take i ++ (data.drop i).filter (fun p => decide (p.id ≠ pid)) := by
  intro data i
  induction data, i using deleteLoop.induct pid with
  | case3 data i h =>
    intro _ _
    rw [deleteLoop_eq_stop pid data i h]
    have hlen : data.length ≤ i := Nat.le_of_not_lt h
    rw [List.take_of_length_le hlen, List.drop_of_length_le hlen, List.filter_nil,
      List.append_nil]
  | case2 data i h post hm ih =>
    intro hu hpre
    rw [deleteLoop_eq_nomatch pid data i h hm]
    have hpre' : ∀ p ∈ data.take (i + 1), p.id ≠ pid := by
      intro p hp
      rw [List.take_succ, List.getElem?_eq_getElem h] at hp
      rcases List.mem_append.mp hp with h' | h'
      · exact hpre p h'
      · have hpd : p = data[i] := by
          simpa using h'
        rw [hpd]
        exact hm
    rw [ih hu hpre']
    rw [List.take_succ, List.getElem?_eq_getElem h]
    rw [List.drop_eq_getElem_cons h, List.filter_cons]
    have htrue : decide (data[i].id ≠ pid) = true := decide_eq_true hm
    rw [if_pos htrue]
    simp only [Option.toList_some]
    rw [List.append_assoc, List.singleton_append]
  | case1 data i h post hm ih =>
    intro hu hpre
    rw [deleteLoop_eq_match pid data i h hm]
    have hpostn : post ∉ data.take i := fun hc => (hpre post hc) hm
    have hdecomp : data = data.take i ++ post :: data.drop (i + 1) := by
      conv_lhs => rw [← List.take_append_drop i data]
      rw [List.drop_eq_getElem_cons h]
      rfl
    have hrf : removeFirst post data = data.take i ++ data.drop (i + 1) := by
      conv_lhs => rw [hdecomp]
      rw [removeFirst_append_left post _ _ hpostn, removeFirst_cons_self]
    have hdropn : ∀ p ∈ data.drop (i + 1), p.id ≠ pid := by
      intro p hp
      rcases List.mem_iff_getElem.mp hp with ⟨j, hj, rfl⟩
      rw [List.getElem_drop]
      have hlt : i + 1 + j < data.length := by
        have := hj
        rw [List.length_drop] at this
        omega
      exact nodup_unique_match data pid hu i h hm (i + 1 + j) hlt (by omega)
    have hnomatch : deleteLoop pid (removeFirst post data) (i + 1) = removeFirst post data := by
      apply deleteLoop_no_match
      intro p hp
      have hpm : p ∈ removeFirst post data := List.drop_subset _ _ hp
      rw [hrf] at hpm
      rcases List.mem_append.mp hpm with h' | h'
      · exact hpre p h'
      · exact hdropn p h'
    rw [hnomatch, hrf]
    rw [List.drop_eq_getElem_cons h, List.filter_cons]
    have hmf : ¬ (decide (data[i].id ≠ pid) = true) := by
      intro hc
      exact (of_decide_eq_true hc) hm
    rw [if_neg hmf]
    rw [List.filter_eq_self.mpr fun a ha => decide_eq_true (hdropn a ha)]

theorem likeData_iterate (pid : Int) (k : Nat) (data : List Post) :
    (likeData pid)^[k] data
      = data.map fun p => if p.id = pid then { p with likes := p.likes + (k : Int) } else p := by
  induction k with
  | zero =>
    symm
    calc data.map (fun p => if p.id = pid then { p with likes := p.likes + ((0 : Nat) : Int) } else p)
        = data.map id := by
          apply List.map_congr_left
          intro p _
          rcases p with ⟨pi, pa, pt, pc, pl⟩
          by_cases h : pi = pid
          · simp [h]
          · simp [h]
      _ = data := List.map_id data
  | succ k ih =>
    rw [Function.iterate_succ_apply', ih, likeData, List.map_map]
    apply List.map_congr_left
    intro p _
    rcases p with ⟨pi, pa, pt, pc, pl⟩
    by_cases h : pi = pid
    · simp only [Function.comp_apply, if_pos h]
      simp only [Post.mk.injEq, true_and]
      push_cast
      ring
    · simp only [Function.comp_apply, if_neg h]

theorem rawToPost_dumpPost (p : Post) : rawToPost (dumpPost p) = some p := rfl

theorem decodeData_dump : ∀ posts : List Post, decodeData (posts.map dumpPost) = some posts := by
  intro posts
  induction posts with
  | nil => rfl
  | cons p ps ih =>
    rw [List.map_cons, decodeData, rawToPost_dumpPost p, ih]

theorem likeRawPost_total (pid : Int) (post : RawPost)
    (hid : (post.lookup kId).isSome = true) (hlikes : isNumLikes post = true) :
    ∃ out, likeRawPost pid post = some out := by
  rw [likeRawPost]
  cases hv : post.lookup kId with
  | none =>
    rw [hv] at hid
    cases hid
  | some v =>
    dsimp only
    by_cases hm : v = JVal.num pid
    · rw [if_pos hm]
      rw [isNumLikes] at hlikes
      cases hl : post.lookup kLikes with
      | none =>
        rw [hl] at hlikes
        cases hlikes
      | some w =>
        cases w with
        | num n =>
          exact ⟨_, rfl⟩
        | str s =>
          rw [hl] at hlikes
          cases hlikes
    · rw [if_neg hm]
      exact ⟨post, rfl⟩

theorem likeRaw_total (pid : Int) :
    ∀ data : List RawPost, likeTotalPre data → ∃ out, likeRaw pid data = some out := by
  intro data
  induction data with
  | nil =>
    intro _
    exact ⟨[], rfl⟩
  | cons post rest ih =>
    intro h
    rcases h post (List.mem_cons_self _ _) with ⟨hid, hlikes⟩
    rcases likeRawPost_total pid post hid hlikes with ⟨p, hp⟩
    rcases ih (fun q hq => h q (List.mem_cons_of_mem _ hq)) with ⟨r, hr⟩
    refine ⟨p :: r, ?_⟩
    rw [likeRaw, hp, hr]

/-- Claim C2 (counterexample): on a collection holding two distinct
posts that both have id 1, the delete loop removes only the first; the
second still matches id 1 and survives, so `delete` does not remove all
posts whose id equals the given id. -/
theorem delete_skips_duplicate_cex :
    deleteLoop 1 dupData 0 = [postB] ∧ postB.id = 1 := by
  constructor
  · simp [deleteLoop, dupData, postA, postB, removeFirst]
  · rfl

/-- Claim C2 (amended): for a collection whose ids are pairwise
distinct, `delete(id)` removes exactly the matching posts (it equals a
filter); because of the remove-inside-iteration loop, a collection with
duplicate ids can keep later duplicates (see the counterexample); when
no post matches, the collection is unchanged, and the operation still
persists and succeeds silently with a redirect. -/
theorem delete_removes_matching_unique (pid : Int) (data : List Post) (disk : FileState)
    (h : (data.map Post.id).Nodup) :
    deleteLoop pid data 0 = data.filter (fun p => decide (p.id ≠ pid)) ∧
    ((∀ p ∈ data, p.id ≠ pid) → deleteLoop pid data 0 = data) ∧
    delete pid true { cache := data, disk := disk }
      = ({ cache := deleteLoop pid data 0,
           disk := FileState.ok ((deleteLoop pid data 0).map dumpPost) }, Resp.redirect) := by
  refine ⟨?_, ?_, ?_⟩
  · have hch := deleteLoop_unique_filter pid data 0 h (by intro p hp; cases hp)
    rw [List.take_zero, List.drop_zero, List.nil_append] at hch
    exact hch
  · intro hno
    apply deleteLoop_no_match
    intro p hp
    rw [List.drop_zero] at hp
    exact hno p hp
  · rfl

/-- Claim C2 (witness). -/
theorem delete_removes_matching_unique_witness :
    ((demoData.map Post.id).Nodup) ∧
    (deleteLoop 2 demoData 0 = demoData.filter (fun p => decide (p.id ≠ 2)) ∧
     ((∀ p ∈ demoData, p.id ≠ 2) → deleteLoop 2 demoData 0 = demoData) ∧
     delete 2 true { cache := demoData, disk := FileState.missing }
       = ({ cache := deleteLoop 2 demoData 0,
            disk := FileState.ok ((deleteLoop 2 demoData 0).map dumpPost) }, Resp.redirect)) :=
  ⟨by decide, delete_removes_matching_unique 2 demoData FileState.missing (by decide)⟩

/-- Claim C3: with pairwise-distinct ids, iterating `like(id)` k times
adds exactly k to the `likes` of every matching post (so a post created
with `likes = 0` reaches `likes = k`) and leaves every other field and
every other post unchanged; distinctness makes the matching post unique;
on a nonexistent id the collection is unchanged, yet the handler still
persists and redirects. -/
theorem like_increments_exactly (pid : Int) (data : List Post) (disk : FileState)
    (h : (data.map Post.id).Nodup) :
    (∀ k : Nat, (likeData pid)^[k] data
        = data.map fun p => if p.id = pid then { p with likes := p.likes + (k : Int) } else p) ∧
    (∀ (i : Nat) (hi : i < data.length), (data.get ⟨i, hi⟩).id = pid →
        ∀ (j : Nat) (hj : j < data.length), j ≠ i → (data.get ⟨j, hj⟩).id ≠ pid) ∧
    ((∀ p ∈ data, p.id ≠ pid) → likeData pid data = data) ∧
    like pid true { cache := data, disk := disk }
      = ({ cache := likeData pid data,
           disk := FileState.ok ((likeData pid data).map dumpPost) }, Resp.redirect) := by
  refine ⟨fun k => likeData_iterate pid k data, ?_, ?_, rfl⟩
  · intro i hi hpid j hj hne
    exact nodup_unique_match data pid h i hi hpid j hj hne
  · intro hno
    calc data.map (fun post => if post.id = pid then { post with likes := post.likes + 1 } else post)
        = data.map id := List.map_congr_left fun p hp => by
          rw [if_neg (hno p hp)]
          rfl
      _ = data := List.map_id data

/-- Claim C3 (witness). -/
theorem like_increments_exactly_witness :
    ((demoData.map Post.id).Nodup) ∧
    ((∀ k : Nat, (likeData 2)^[k] demoData
        = demoData.map fun p => if p.id = 2 then { p with likes := p.likes + (k : Int) } else p) ∧
     (∀ (i : Nat) (hi : i < demoData.length), (demoData.get ⟨i, hi⟩).id = 2 →
        ∀ (j : Nat) (hj : j < demoData.length), j ≠ i → (demoData.get ⟨j, hj⟩).id ≠ 2) ∧
     ((∀ p ∈ demoData, p.id ≠ 2) → likeData 2 demoData = demoData) ∧
     like 2 true { cache := demoData, disk := FileState.missing }
      = ({ cache := likeData 2 demoData,
           disk := FileState.ok ((likeData 2 demoData).map dumpPost) }, Resp.redirect)) :=
  ⟨by decide, like_increments_exactly 2 demoData FileState.missing (by decide)⟩

/-- Claim C4: when no post has the requested id, `update` returns the
not-found signal (404), performs no save, and leaves both the cached
collection and the backing file entirely unchanged. -/
theorem update_missing_id_no_persist (pid : Int) (a c : String) (data : List Post)
    (disk : FileState) (saveOk : Bool) (h : ∀ p ∈ data, p.id ≠ pid) :
    updateData pid a c data = (none, data, false) ∧
    update pid a c saveOk { cache := data, disk := disk }
      = ({ cache := data, disk := disk }, Resp.notFound) := by
  have hn : lastMatchIdx pid data = none := (lastMatchIdx_none_iff pid data).mpr h
  constructor
  · exact updateData_eq_none pid a c data hn
  · simp only [update, updateData_eq_none pid a c data hn]

/-- Claim C4 (witness). -/
theorem update_missing_id_no_persist_witness :
    (∀ p ∈ demoData, p.id ≠ 99) ∧
    (updateData 99 "x" "y" demoData = (none, demoData, false) ∧
     update 99 "x" "y" false { cache := demoData, disk := FileState.missing }
       = ({ cache := demoData, disk := FileState.missing }, Resp.notFound)) :=
  ⟨by decide, update_missing_id_no_persist 99 "x" "y" demoData FileState.missing false (by decide)⟩

/-- Claim C5: when the collection contains a post with the requested id,
`update(id, a, c)` overwrites exactly that post's (the last match's)
`author` and `content` with `a` and `c`, keeps its `title`, `likes` and
`id` (the record update touches only the two fields), leaves all other
posts unchanged, persists the collection, and returns the updated post. -/
theorem update_existing_overwrites (pid : Int) (a c : String) (data : List Post)
    (h : ∃ p ∈ data, p.id = pid) :
    ∃ (i : Nat) (hi : i < data.length),
      (data.get ⟨i, hi⟩).id = pid ∧
      updateData pid a c data
        = (some (updatedPost a c (data.get ⟨i, hi⟩)),
           data.set i (updatedPost a c (data.get ⟨i, hi⟩)), true) ∧
      (updatedPost a c (data.get ⟨i, hi⟩)).author = a ∧
      (updatedPost a c (data.get ⟨i, hi⟩)).content = c ∧
      (updatedPost a c (data.get ⟨i, hi⟩)).title = (data.get ⟨i, hi⟩).title ∧
      (updatedPost a c (data.get ⟨i, hi⟩)).likes = (data.get ⟨i, hi⟩).likes ∧
      (updatedPost a c (data.get ⟨i, hi⟩)).id = (data.get ⟨i, hi⟩).id ∧
      (∀ j : Nat, j ≠ i →
        (data.set i (updatedPost a c (data.get ⟨i, hi⟩)))[j]? = data[j]?) ∧
      (∀ disk : FileState,
        update pid a c true { cache := data, disk := disk }
          = ({ cache := data.set i (updatedPost a c (data.get ⟨i, hi⟩)),
               disk := FileState.ok ((data.set i (updatedPost a c (data.get ⟨i, hi⟩))).map
                 dumpPost) }, Resp.redirect)) := by
  cases hl : lastMatchIdx pid data with
  | none =>
    exfalso
    rcases h with ⟨p, hp, hpid⟩
    exact ((lastMatchIdx_none_iff pid data).mp hl) p hp hpid
  | some i =>
    have hi := lastMatchIdx_lt pid data i hl
    have hid := lastMatchIdx_id pid data i hl hi
    refine ⟨i, hi, hid, updateData_eq_some pid a c data i hl hi, rfl, rfl, rfl, rfl, rfl, ?_, ?_⟩
    · intro j hne
      exact List.getElem?_set_ne (Ne.symm hne)
    · intro disk
      simp only [updatedPost, update, updateData_eq_some pid a c data i hl hi, save_data, if_true]

/-- Claim C5 (witness). -/
theorem update_existing_overwrites_witness :
    (∃ p ∈ demoData, p.id = 2) ∧
    (∃ (i : Nat) (hi : i < demoData.length),
      (demoData.get ⟨i, hi⟩).id = 2 ∧
      updateData 2 "a2" "c2" demoData
        = (some (updatedPost "a2" "c2" (demoData.get ⟨i, hi⟩)),
           demoData.set i (updatedPost "a2" "c2" (demoData.get ⟨i, hi⟩)), true) ∧
      (updatedPost "a2" "c2" (demoData.get ⟨i, hi⟩)).author = "a2" ∧
      (updatedPost "a2" "c2" (demoData.get ⟨i, hi⟩)).content = "c2" ∧
      (updatedPost "a2" "c2" (demoData.get ⟨i, hi⟩)).title = (demoData.get ⟨i, hi⟩).title ∧
      (updatedPost "a2" "c2" (demoData.get ⟨i, hi⟩)).likes = (demoData.get ⟨i, hi⟩).likes ∧
      (updatedPost "a2" "c2" (demoData.get ⟨i, hi⟩)).id = (demoData.get ⟨i, hi⟩).id ∧
      (∀ j : Nat, j ≠ i →
        (demoData.set i (updatedPost "a2" "c2" (demoData.get ⟨i, hi⟩)))[j]? = demoData[j]?) ∧
      (∀ disk : FileState,
        update 2 "a2" "c2" true { cache := demoData, disk := disk }
          = ({ cache := demoData.set i (updatedPost "a2" "c2" (demoData.get ⟨i, hi⟩)),
               disk := FileState.ok ((demoData.set i (updatedPost "a2" "c2"
                 (demoData.get ⟨i, hi⟩))).map dumpPost) }, Resp.redirect))) :=
  ⟨by decide, update_existing_overwrites 2 "a2" "c2" demoData (by decide)⟩

/-- Claim C6: `load` never surfaces an error: it is a total function,
and on a missing file, an empty file, unparseable contents, or any other
I/O failure it returns the empty collection. -/
theorem load_failures_absorbed :
    load_data FileState.missing = [] ∧ load_data FileState.emptyFile = [] ∧
    load_data FileState.unparseable = [] ∧ load_data FileState.ioError = [] :=
  ⟨rfl, rfl, rfl, rfl⟩

/-- Claim C7: a failing save during `add`, `delete`, `like` or `update`
is invisible to the caller: the resulting cache and the HTTP-level
response are identical to the success case (only the backing file
differs), and no error value exists to be propagated (the response type
has no error constructor for save failures). -/
theorem save_failure_not_propagated (a t c a2 c2 : String) (pid pid2 pid3 : Int)
    (s : Sys) (saveOk : Bool) :
    ((add a t c saveOk s).1.cache = (add a t c true s).1.cache
      ∧ (add a t c saveOk s).2 = (add a t c true s).2) ∧
    ((delete pid saveOk s).1.cache = (delete pid true s).1.cache
      ∧ (delete pid saveOk s).2 = (delete pid true s).2) ∧
    ((like pid2 saveOk s).1.cache = (like pid2 true s).1.cache
      ∧ (like pid2 saveOk s).2 = (like pid2 true s).2) ∧
    ((update pid3 a2 c2 saveOk s).1.cache = (update pid3 a2 c2 true s).1.cache
      ∧ (update pid3 a2 c2 saveOk s).2 = (update pid3 a2 c2 true s).2) := by
  refine ⟨⟨rfl, rfl⟩, ⟨rfl, rfl⟩, ⟨rfl, rfl⟩, ?_⟩
  rcases hu : updateData pid3 a2 c2 s.cache with ⟨o, d, b⟩
  cases o
  · simp [update, hu]
  · simp [update, hu]

/-- Claim C8: saving a collection and loading the file back yields the
original collection exactly — same order, all five fields of every post
(the file stores structured records, so "up to formatting whitespace"
is the identity on the parsed content). -/
theorem save_load_roundtrip (posts : List Post) (disk : FileState) (_hne : posts ≠ []) :
    decodeData (load_data (save_data true posts disk)) = some posts := by
  rw [save_data, if_pos rfl, load_data]
  exact decodeData_dump posts

/-- Claim C8 (witness). -/
theorem save_load_roundtrip_witness :
    (demoData ≠ []) ∧
    decodeData (load_data (save_data true demoData FileState.missing)) = some demoData :=
  ⟨by decide, save_load_roundtrip demoData FileState.missing (by decide)⟩

/-- Claim C9: starting from a collection with pairwise-distinct ids,
each of `create`, `delete`, `like` and `update` yields a collection with
pairwise-distinct ids; in particular `create`'s `max + 1` id exceeds
every existing id and cannot collide. -/
theorem ops_preserve_unique_ids (data : List Post) (a t c a2 c2 : String)
    (pid pid2 pid3 : Int) (h : (data.map Post.id).Nodup) :
    ((addData a t c data).map Post.id).Nodup ∧
    ((deleteLoop pid data 0).map Post.id).Nodup ∧
    ((likeData pid2 data).map Post.id).Nodup ∧
    (((updateData pid3 a2 c2 data).2.1).map Post.id).Nodup := by
  refine ⟨?_, ?_, ?_, ?_⟩
  · rw [addData_ids, List.nodup_append]
    refine ⟨h, List.nodup_singleton _, ?_⟩
    rw [List.disjoint_singleton]
    intro hmem
    have := le_maxDefault _ _ hmem
    omega
  · exact List.Nodup.sublist (List.Sublist.map Post.id (deleteLoop_sublist pid data 0)) h
  · rw [likeData_ids]
    exact h
  · rw [updateData_ids]
    exact h

/-- Claim C9 (witness). -/
theorem ops_preserve_unique_ids_witness :
    ((demoData.map Post.id).Nodup) ∧
    (((addData "a" "t" "c" demoData).map Post.id).Nodup ∧
     ((deleteLoop 1 demoData 0).map Post.id).Nodup ∧
     ((likeData 1 demoData).map Post.id).Nodup ∧
     (((updateData 2 "x" "y" demoData).2.1).map Post.id).Nodup) :=
  ⟨by decide, ops_preserve_unique_ids demoData "a" "t" "c" "x" "y" 1 1 2 (by decide)⟩

/-- Claim C10: the raw `like` loop is total exactly under the implicit
precondition that every record carries an `id` field and a numeric
`likes` field — then it never fails — whereas on a record that matches
the id but lacks `likes`, the loop raises (`KeyError`) instead of
behaving as a no-op. -/
theorem like_total_requires_fields (pid : Int) (data : List RawPost) (h : likeTotalPre data) :
    (∃ out, likeRaw pid data = some out) ∧ likeRaw 1 [rawNoLikes] = none := by
  refine ⟨likeRaw_total pid data h, ?_⟩
  rfl

/-- Claim C10 (witness). -/
theorem like_total_requires_fields_witness :
    likeTotalPre [rawGood] ∧
    ((∃ out, likeRaw 1 [rawGood] = some out) ∧ likeRaw 1 [rawNoLikes] = none) :=
  ⟨by decide, like_total_requires_fields 1 [rawGood] (by decide)⟩

end Masterblog

